import Mathlib

/-!
Shallow embedding of the ollama proxy server dispatch engine
(src/unnamed/part_000 and src/server/src/routes/aiHandler.ts) together
with theorems settling the frozen claims about it.

Conventions of the embedding:
* byte strings are modelled as `List Char` (for header and log text) or
  `List Nat` (for raw body bytes);
* machine integers of the source are small counters, modelled as `Nat`
  or `Int`;
* asynchronous control flow is sequential per request, so each handler
  is a pure function; outcomes of upstream calls (probe results, fetch
  results, per attempt transport failures) are supplied as oracles;
* loops of the source that terminate because each iteration removes one
  element from a list are written with an explicit fuel argument that the
  wrapper instantiates with the length of the list, keeping every
  definition computable by kernel reduction.
-/

namespace OllamaProxy

/-! ## Retrying forwarder: sendRequestWithRetries (part_000 lines 136-192)

Each attempt of the source either yields a response object (whatever its
HTTP status) or ends in a transport error or in expiry of the per attempt
deadline (the AbortController timeout).  The outcomes of the successive
attempts are supplied as a list, one entry per potential attempt; its
length is the `attempts` argument of the source function. -/

/-- Outcome of one forwarding attempt as seen by the `try` block of
`sendRequestWithRetries`: either `fetch` resolved with a response of some
status code, or it rejected (transport error), or the abort signal fired
(deadline expiry). -/
inductive AttemptOut where
  | resp (status : Nat)
  | transportError
  | timeoutExpiry
deriving DecidableEq

/-- True when the attempt produced no response (the two retry causes). -/
def isNoResponse : AttemptOut → Bool
  | .resp _ => false
  | .transportError => true
  | .timeoutExpiry => true

/-- The `for (let i = 0; i < attempts; i++)` loop of
`sendRequestWithRetries`: on a response, `return response` at once,
whatever the status code; otherwise the `catch` block logs (the abort
case and the transport case differ only in the message) and the loop
moves on to the next attempt; when the attempts are exhausted the
function returns null. -/
def sendRequestWithRetries : List AttemptOut → Option Nat
  | [] => none
  | .resp s :: _ => some s
  | .transportError :: rest => sendRequestWithRetries rest
  | .timeoutExpiry :: rest => sendRequestWithRetries rest

/-- Number of iterations the attempt loop actually runs; each iteration
issues exactly one upstream request. -/
def attemptsIssued : List AttemptOut → Nat
  | [] => 0
  | .resp _ :: _ => 1
  | .transportError :: rest => 1 + attemptsIssued rest
  | .timeoutExpiry :: rest => 1 + attemptsIssued rest

theorem sendRequestWithRetries_eq_none (outs : List AttemptOut) :
    sendRequestWithRetries outs = none ↔ ∀ a ∈ outs, isNoResponse a = true := by
  induction outs with
  | nil => simp [sendRequestWithRetries]
  | cons a rest ih =>
    cases a with
    | resp s => simp [sendRequestWithRetries, isNoResponse]
    | transportError => simpa [sendRequestWithRetries, isNoResponse] using ih
    | timeoutExpiry => simpa [sendRequestWithRetries, isNoResponse] using ih

theorem sendRequestWithRetries_eq_some (outs : List AttemptOut) (s : Nat) :
    sendRequestWithRetries outs = some s ↔
      ∃ pre suf, outs = pre ++ .resp s :: suf ∧ ∀ a ∈ pre, isNoResponse a = true := by
  induction outs with
  | nil =>
    simp only [sendRequestWithRetries]
    constructor
    · intro h; exact absurd h (by simp)
    · rintro ⟨pre, suf, h, -⟩; exact absurd h (by simp)
  | cons a rest ih =>
    cases a with
    | resp t =>
      simp only [sendRequestWithRetries]
      constructor
      · intro h
        injection h with h
        exact ⟨[], rest, by simp [h], by intro a ha; exact absurd ha (List.not_mem_nil a)⟩
      · rintro ⟨pre, suf, heq, hpre⟩
        cases pre with
        | nil =>
          simp only [List.nil_append, List.cons.injEq, AttemptOut.resp.injEq] at heq
          rw [heq.1.symm]
        | cons b pre2 =>
          simp only [List.cons_append, List.cons.injEq] at heq
          have := hpre b (by simp)
          rw [← heq.1] at this
          simp [isNoResponse] at this
    | transportError =>
      simp only [sendRequestWithRetries]
      rw [ih]
      constructor
      · rintro ⟨pre, suf, heq, hpre⟩
        refine ⟨.transportError :: pre, suf, by simp [heq], ?_⟩
        intro a ha
        rcases List.mem_cons.mp ha with h1 | h2
        · rw [h1]; rfl
        · exact hpre a h2
      · rintro ⟨pre, suf, heq, hpre⟩
        cases pre with
        | nil => simp at heq
        | cons b pre2 =>
          simp only [List.cons_append, List.cons.injEq] at heq
          refine ⟨pre2, suf, heq.2, ?_⟩
          intro a ha
          exact hpre a (List.mem_cons_of_mem b ha)
    | timeoutExpiry =>
      simp only [sendRequestWithRetries]
      rw [ih]
      constructor
      · rintro ⟨pre, suf, heq, hpre⟩
        refine ⟨.timeoutExpiry :: pre, suf, by simp [heq], ?_⟩
        intro a ha
        rcases List.mem_cons.mp ha with h1 | h2
        · rw [h1]; rfl
        · exact hpre a h2
      · rintro ⟨pre, suf, heq, hpre⟩
        cases pre with
        | nil => simp at heq
        | cons b pre2 =>
          simp only [List.cons_append, List.cons.injEq] at heq
          refine ⟨pre2, suf, heq.2, ?_⟩
          intro a ha
          exact hpre a (List.mem_cons_of_mem b ha)

theorem attemptsIssued_first_resp (pre : List AttemptOut) (s : Nat) (suf : List AttemptOut)
    (hpre : ∀ a ∈ pre, isNoResponse a = true) :
    attemptsIssued (pre ++ .resp s :: suf) = pre.length + 1 := by
  induction pre with
  | nil => simp [attemptsIssued]
  | cons a rest ih =>
    have ha := hpre a (by simp)
    have hrest : ∀ b ∈ rest, isNoResponse b = true :=
      fun b hb => hpre b (List.mem_cons_of_mem a hb)
    cases a with
    | resp t => simp [isNoResponse] at ha
    | transportError =>
      show 1 + attemptsIssued (rest ++ .resp s :: suf) = rest.length + 1 + 1
      rw [ih hrest]
      omega
    | timeoutExpiry =>
      show 1 + attemptsIssued (rest ++ .resp s :: suf) = rest.length + 1 + 1
      rw [ih hrest]
      omega

/-- C1: for every sequence of per attempt outcomes (of length `n ≥ 1`),
the forwarder returns the first response received regardless of its HTTP
status, issues no further attempt once any response arrived (the suffix
after the first response costs no request), retries only on transport
error or deadline expiry, and returns null exactly when all attempts
ended without a response. -/
theorem forwarder_first_response (outs : List AttemptOut) (hn : 1 ≤ outs.length) :
    ((sendRequestWithRetries outs = none) ↔ ∀ a ∈ outs, isNoResponse a = true) ∧
    (∀ s, sendRequestWithRetries outs = some s ↔
      ∃ pre suf, outs = pre ++ .resp s :: suf ∧ ∀ a ∈ pre, isNoResponse a = true) ∧
    (∀ pre s suf, outs = pre ++ .resp s :: suf → (∀ a ∈ pre, isNoResponse a = true) →
      attemptsIssued outs = pre.length + 1) := by
  refine ⟨sendRequestWithRetries_eq_none outs, fun s => sendRequestWithRetries_eq_some outs s, ?_⟩
  intro pre s suf heq hpre
  rw [heq]
  exact attemptsIssued_first_resp pre s suf hpre

/-- Witness for C1 at a concrete outcome sequence: the first attempt hits
a transport error, the second returns a 500 response; that response is
returned and only two attempts are issued out of the three allowed. -/
theorem forwarder_first_response_witness :
    sendRequestWithRetries [.transportError, .resp 500, .transportError] = some 500 ∧
    attemptsIssued [.transportError, .resp 500, .transportError] = 2 :=
  ⟨((forwarder_first_response [.transportError, .resp 500, .transportError]
        (by decide)).2.1 500).mpr ⟨[.transportError], [.transportError], rfl, by decide⟩,
    (forwarder_first_response [.transportError, .resp 500, .transportError]
        (by decide)).2.2 [.transportError] 500 [.transportError] rfl (by decide)⟩

end OllamaProxy

/-! ## Load ordering: the candidate sort (part_000 line 352)

`availableServers.sort((a, b) => a[1].queue.length - b[1].queue.length)`
is the ECMAScript `Array.prototype.sort` with an ascending numeric
comparator on the queue length; since ES2019 this sort is required to be
stable, which insertion sort models exactly. -/

/-- Stable ascending sort by a numeric key; the model of the JS
`sort((a, b) => key(a) - key(b))` call. -/
def jsSortByKey {α : Type} (key : α → Nat) (l : List α) : List α :=
  l.insertionSort (fun a b => key a ≤ key b)

theorem filter_orderedInsert {α : Type} (key : α → Nat) (x : α) (l : List α) (k : Nat) :
    (l.orderedInsert (fun a b => key a ≤ key b) x).filter (fun a => key a = k) =
      if key x = k then x :: l.filter (fun a => key a = k)
      else l.filter (fun a => key a = k) := by
  induction l with
  | nil =>
    by_cases hxk : key x = k <;> simp [List.orderedInsert, List.filter, hxk]
  | cons b t ih =>
    show ((if key x ≤ key b then x :: b :: t
        else b :: t.orderedInsert (fun a b => key a ≤ key b) x).filter
          (fun a => key a = k)) = _
    by_cases hxb : key x ≤ key b
    · rw [if_pos hxb]
      by_cases hxk : key x = k <;> simp [List.filter, hxk]
    · rw [if_neg hxb]
      have hbx : key b < key x := Nat.lt_of_not_le hxb
      by_cases hxk : key x = k
      · have hbk : ¬ (key b = k) := by omega
        simp [List.filter_cons, hbk, ih, hxk]
      · by_cases hbk : key b = k
        · simp [List.filter_cons, hbk, ih, hxk]
        · simp [List.filter_cons, hbk, ih, hxk]

theorem filter_jsSortByKey {α : Type} (key : α → Nat) (l : List α) (k : Nat) :
    (jsSortByKey key l).filter (fun a => key a = k) = l.filter (fun a => key a = k) := by
  induction l with
  | nil => rfl
  | cons x t ih =>
    have hunf : jsSortByKey key (x :: t) =
        (jsSortByKey key t).orderedInsert (fun a b => key a ≤ key b) x := rfl
    rw [hunf, filter_orderedInsert, ih]
    by_cases hxk : key x = k <;> simp [List.filter_cons, hxk]

theorem sorted_jsSortByKey {α : Type} (key : α → Nat) (l : List α) :
    (jsSortByKey key l).Sorted (fun a b => key a ≤ key b) := by
  haveI : IsTotal α (fun a b => key a ≤ key b) := ⟨fun a b => Nat.le_total (key a) (key b)⟩
  haveI : IsTrans α (fun a b => key a ≤ key b) := ⟨fun _ _ _ h1 h2 => Nat.le_trans h1 h2⟩
  exact List.sorted_insertionSort _ l

theorem mem_jsSortByKey {α : Type} (key : α → Nat) (l : List α) (x : α) :
    x ∈ jsSortByKey key l ↔ x ∈ l :=
  List.mem_insertionSort _

/-! ## Dispatcher attempt loop (part_000 lines 347-448)

The `while (availableServers.length > 0)` loop: sort the remaining
candidates by queue length, take the head, probe it; on probe failure
shift and continue; otherwise `queue.push(1)`, log `gen_request`, run the
forwarder inside `try`, stream the response if one arrived, and in
`finally` run `queue.pop()` and log `gen_done`.  A response exits the
loop through `break`; an exception propagates out of the loop (the top
level handler turns it into a 500); a null response shifts the candidate
and continues.

The per backend interaction is supplied by two oracles: `probe` for
`isServerAvailable` and `fwd` for the joint outcome of
`sendRequestWithRetries` and of the streaming step.  Queue counters are a
map from backend name to `Nat`; the visible actions are recorded as an
event trace. -/

/-- Joint outcome of the `try` body for one backend: the forwarder threw,
returned null, or returned a response (whose streaming then either
completed or threw inside `pump`). -/
inductive FwdOut where
  | threw
  | nullResp
  | resp (streamThrew : Bool)
deriving DecidableEq

/-- Observable actions of the attempt loop: queue push, `gen_request` log
line (with the queue depth written to it), streaming of a response to the
client, queue pop, `gen_done` log line. -/
inductive Ev where
  | inc (s : String)
  | logReq (s : String) (n : Nat)
  | stream (s : String)
  | dec (s : String)
  | logDone (s : String) (n : Nat)
deriving DecidableEq

/-- Terminal state of the attempt loop: a response was streamed from
backend `s`, all candidates were exhausted (503), or an exception
propagated (500 at the top level). -/
inductive DOut where
  | success (s : String)
  | exhausted
  | threw
deriving DecidableEq

/-- How the `try` body of the attempt frame ended. -/
inductive BodyRes where
  | thrown
  | gotNull
  | gotResp
deriving DecidableEq

/-- Pointwise update of the queue length map. -/
def qUpdate (q : String → Nat) (s : String) (n : Nat) : String → Nat :=
  fun t => if t = s then n else q t

/-- Events of the `try` body and its result: nothing on a throw or a null
response, one streaming action when a response arrived (streaming may
itself throw inside `pump`, after which the exception propagates). -/
def frameBody (b : String) : FwdOut → List Ev × BodyRes
  | .threw => ([], .thrown)
  | .nullResp => ([], .gotNull)
  | .resp st => ([Ev.stream b], if st then .thrown else .gotResp)

/-- One attempt frame for backend `b`: `queue.push(1)` and the
`gen_request` log line (depth read after the push), then the `try` body,
then the `finally` clause, which runs `queue.pop()` and writes the
`gen_done` log line (depth read after the pop) on every exit path of the
body, including exception propagation. -/
def attemptFrame (b : String) (o : FwdOut) (q : String → Nat) :
    List Ev × (String → Nat) × BodyRes :=
  let q1 := qUpdate q b (q b + 1)
  let body := frameBody b o
  let q2 := qUpdate q1 b (q1 b - 1)
  (Ev.inc b :: Ev.logReq b (q1 b) :: (body.1 ++ [Ev.dec b, Ev.logDone b (q2 b)]),
    q2, body.2)

/-- The attempt loop.  Fuel counts loop iterations; every iteration
removes one candidate, so the wrapper passes the length of the candidate
list and the fuel never runs out. -/
def dispatchGo (probe : String → Bool) (fwd : String → FwdOut) :
    Nat → (String → Nat) → List String → List Ev × DOut × (String → Nat)
  | 0, q, _ => ([], DOut.exhausted, q)
  | fuel + 1, q, l =>
    match jsSortByKey q l with
    | [] => ([], DOut.exhausted, q)
    | b :: rest =>
      if probe b then
        let fr := attemptFrame b (fwd b) q
        match fr.2.2 with
        | BodyRes.thrown => (fr.1, DOut.threw, fr.2.1)
        | BodyRes.gotResp => (fr.1, DOut.success b, fr.2.1)
        | BodyRes.gotNull =>
          let out := dispatchGo probe fwd fuel fr.2.1 rest
          (fr.1 ++ out.1, out.2.1, out.2.2)
      else dispatchGo probe fwd fuel q rest

/-- The attempt loop of `handleRequest`, entered with the filtered
candidate list. -/
def dispatchRun (probe : String → Bool) (fwd : String → FwdOut)
    (q : String → Nat) (l : List String) : List Ev × DOut × (String → Nat) :=
  dispatchGo probe fwd l.length q l

/-- Number of occurrences of an event in a trace. -/
def countEv (e : Ev) : List Ev → Nat
  | [] => 0
  | x :: rest => (if x = e then 1 else 0) + countEv e rest

theorem countEv_append (e : Ev) (l1 l2 : List Ev) :
    countEv e (l1 ++ l2) = countEv e l1 + countEv e l2 := by
  induction l1 with
  | nil => simp [countEv]
  | cons x t ih => simp [countEv, ih]; omega

/-- The iteration view of the same loop: the candidate list at entry of
each iteration paired with the backend the iteration picks (the head of
the sorted list).  The loop continues past an iteration exactly when the
probe failed or the forwarder returned null; a response or an exception
ends it.  Queue depths are read at loop entry, where the frame of every
earlier iteration has restored them (`attemptFrame_restores`). -/
def itersGo (probe : String → Bool) (fwd : String → FwdOut) (q : String → Nat) :
    Nat → List String → List (List String × String)
  | 0, _ => []
  | fuel + 1, l =>
    match jsSortByKey q l with
    | [] => []
    | b :: rest =>
      (l, b) ::
        (if !probe b || (fwd b == FwdOut.nullResp) then itersGo probe fwd q fuel rest
         else [])

/-- Iterations of the attempt loop over candidate list `l`. -/
def itersOf (probe : String → Bool) (fwd : String → FwdOut)
    (q : String → Nat) (l : List String) : List (List String × String) :=
  itersGo probe fwd q l.length l

theorem itersGo_spec (probe : String → Bool) (fwd : String → FwdOut)
    (q : String → Nat) (c0 : List String) :
    ∀ fuel l,
      (∀ k, List.IsSuffix (l.filter (fun x => q x = k)) (c0.filter (fun x => q x = k))) →
      ∀ p ∈ itersGo probe fwd q fuel l,
        p.2 ∈ p.1 ∧ (∀ x ∈ p.1, q p.2 ≤ q x) ∧
        (∃ t, p.1.filter (fun x => q x = q p.2) = p.2 :: t) ∧
        (∀ k, List.IsSuffix (p.1.filter (fun x => q x = k))
          (c0.filter (fun x => q x = k))) := by
  intro fuel
  induction fuel with
  | zero => intro l hinv p hp; simp [itersGo] at hp
  | succ n ih =>
    intro l hinv p hp
    rcases hs : jsSortByKey q l with _ | ⟨b, rest⟩
    · simp only [itersGo, hs] at hp
      exact absurd hp (List.not_mem_nil p)
    · simp only [itersGo, hs] at hp
      rcases List.mem_cons.mp hp with hph | hpt
      · rw [hph]
        refine ⟨?_, ?_, ?_, hinv⟩
        · have hb : b ∈ jsSortByKey q l := by rw [hs]; exact List.mem_cons_self b rest
          exact (mem_jsSortByKey q l b).mp hb
        · intro x hx
          have hxs : x ∈ jsSortByKey q l := (mem_jsSortByKey q l x).mpr hx
          rw [hs] at hxs
          rcases List.mem_cons.mp hxs with h1 | h2
          · rw [h1]
          · exact List.rel_of_sorted_cons (hs ▸ sorted_jsSortByKey q l) x h2
        · have hfil := filter_jsSortByKey q l (q b)
          rw [hs] at hfil
          have hcons : (b :: rest).filter (fun x => q x = q b)
              = b :: rest.filter (fun x => q x = q b) := by simp
          exact ⟨rest.filter (fun x => q x = q b), by rw [← hfil, hcons]⟩
      · by_cases hcont : (!probe b || (fwd b == FwdOut.nullResp)) = true
        · rw [if_pos hcont] at hpt
          refine ih rest ?_ p hpt
          intro k
          have hfil := filter_jsSortByKey q l k
          rw [hs] at hfil
          refine List.IsSuffix.trans ?_ (hinv k)
          by_cases hbk : q b = k
          · have hcons : (b :: rest).filter (fun x => q x = k)
                = b :: rest.filter (fun x => q x = k) := by simp [hbk]
            exact ⟨[b], by rw [← hfil, hcons]; rfl⟩
          · have hcons : (b :: rest).filter (fun x => q x = k)
                = rest.filter (fun x => q x = k) := by simp [hbk]
            rw [← hfil, hcons]
        · rw [if_neg hcont] at hpt
          exact absurd hpt (List.not_mem_nil p)

/-- C2: in every iteration of the attempt loop over a non-empty candidate
list, the picked backend (head of the stably sorted list) belongs to the
remaining candidates, its queue length is minimal among them, it is the
first element of its queue length class in the remaining order, and for
every queue length the remaining candidates of that length form a suffix
of the initial candidate order (so ties are broken by the snapshot
order, which the initial filter preserves). -/
theorem dispatcher_pick_minimal (probe : String → Bool) (fwd : String → FwdOut)
    (q : String → Nat) (c0 : List String) :
    ∀ p ∈ itersOf probe fwd q c0,
      p.2 ∈ p.1 ∧ (∀ x ∈ p.1, q p.2 ≤ q x) ∧
      (∃ t, p.1.filter (fun x => q x = q p.2) = p.2 :: t) ∧
      (∀ k, List.IsSuffix (p.1.filter (fun x => q x = k))
        (c0.filter (fun x => q x = k))) :=
  fun p hp =>
    itersGo_spec probe fwd q c0 c0.length c0 (fun _ => List.suffix_rfl) p hp

/-- Queue length map of the C2 witness: backend A carries 2 in flight
requests, backend B carries none. -/
def witQ : String → Nat := fun s => if s = "A" then 2 else 0

/-- Witness for C2: with A before B in the snapshot but more loaded, the
first iteration picks B; instantiating the theorem at that iteration
yields the minimality facts concretely. -/
theorem dispatcher_pick_minimal_witness :
    "B" ∈ ["A", "B"] ∧ witQ "B" ≤ witQ "A" ∧
    (∃ t, (["A", "B"].filter (fun x => witQ x = witQ "B")) = "B" :: t) :=
  ⟨(dispatcher_pick_minimal (fun _ => false) (fun _ => FwdOut.nullResp) witQ ["A", "B"]
      (["A", "B"], "B") (by decide)).1,
    (dispatcher_pick_minimal (fun _ => false) (fun _ => FwdOut.nullResp) witQ ["A", "B"]
      (["A", "B"], "B") (by decide)).2.1 "A" (by decide),
    (dispatcher_pick_minimal (fun _ => false) (fun _ => FwdOut.nullResp) witQ ["A", "B"]
      (["A", "B"], "B") (by decide)).2.2.1⟩

theorem attemptFrame_restores (b : String) (o : FwdOut) (q : String → Nat) (s : String) :
    (attemptFrame b o q).2.1 s = q s := by
  simp only [attemptFrame, qUpdate]
  by_cases hsb : s = b
  · simp [hsb]
  · simp [hsb]

theorem countEv_attemptFrame_inc (b : String) (o : FwdOut) (q : String → Nat) (s : String) :
    countEv (Ev.inc s) (attemptFrame b o q).1 = if b = s then 1 else 0 := by
  cases o <;> simp [attemptFrame, frameBody, countEv, countEv_append]

theorem countEv_attemptFrame_dec (b : String) (o : FwdOut) (q : String → Nat) (s : String) :
    countEv (Ev.dec s) (attemptFrame b o q).1 = if b = s then 1 else 0 := by
  cases o <;> simp [attemptFrame, frameBody, countEv, countEv_append]

theorem dispatchGo_conservation (probe : String → Bool) (fwd : String → FwdOut) :
    ∀ fuel (q : String → Nat) (l : List String) (s : String),
      countEv (Ev.inc s) (dispatchGo probe fwd fuel q l).1 =
        countEv (Ev.dec s) (dispatchGo probe fwd fuel q l).1 ∧
      (dispatchGo probe fwd fuel q l).2.2 s = q s := by
  intro fuel
  induction fuel with
  | zero => intro q l s; exact ⟨by trivial, by trivial⟩
  | succ n ih =>
    intro q l s
    rcases hs : jsSortByKey q l with _ | ⟨b, rest⟩
    · simp only [dispatchGo, hs]
      exact ⟨by trivial, by trivial⟩
    · simp only [dispatchGo, hs]
      by_cases hp : probe b = true
      · rw [if_pos hp]
        rcases hf : fwd b with _ | _ | st
        · exact ⟨(countEv_attemptFrame_inc b FwdOut.threw q s).trans
              (countEv_attemptFrame_dec b FwdOut.threw q s).symm,
            attemptFrame_restores b FwdOut.threw q s⟩
        · have hrec := ih ((attemptFrame b FwdOut.nullResp q).2.1) rest s
          refine ⟨?_, ?_⟩
          · show countEv (Ev.inc s) ((attemptFrame b FwdOut.nullResp q).1 ++
                (dispatchGo probe fwd n ((attemptFrame b FwdOut.nullResp q).2.1) rest).1) =
              countEv (Ev.dec s) ((attemptFrame b FwdOut.nullResp q).1 ++
                (dispatchGo probe fwd n ((attemptFrame b FwdOut.nullResp q).2.1) rest).1)
            rw [countEv_append, countEv_append, countEv_attemptFrame_inc,
              countEv_attemptFrame_dec, hrec.1]
          · show (dispatchGo probe fwd n
                ((attemptFrame b FwdOut.nullResp q).2.1) rest).2.2 s = q s
            rw [hrec.2, attemptFrame_restores]
        · cases st with
          | true =>
            exact ⟨(countEv_attemptFrame_inc b (FwdOut.resp true) q s).trans
                (countEv_attemptFrame_dec b (FwdOut.resp true) q s).symm,
              attemptFrame_restores b (FwdOut.resp true) q s⟩
          | false =>
            exact ⟨(countEv_attemptFrame_inc b (FwdOut.resp false) q s).trans
                (countEv_attemptFrame_dec b (FwdOut.resp false) q s).symm,
              attemptFrame_restores b (FwdOut.resp false) q s⟩
      · rw [if_neg hp]
        exact ih q rest s

/-- C3: for every probe and forwarder behaviour, every initial queue map
and every candidate list, the trace of the attempt loop contains exactly
as many queue pushes as queue pops for every backend, on all exit paths
(response, exhaustion, or an exception thrown by the forwarder or by the
streaming step and propagated through the `finally` clause), and the
queue map after the loop equals the initial one. -/
theorem queue_depth_conservation (probe : String → Bool) (fwd : String → FwdOut)
    (q : String → Nat) (l : List String) (s : String) :
    countEv (Ev.inc s) (dispatchRun probe fwd q l).1 =
      countEv (Ev.dec s) (dispatchRun probe fwd q l).1 ∧
    (dispatchRun probe fwd q l).2.2 s = q s :=
  dispatchGo_conservation probe fwd l.length q l s

theorem dispatchGo_success_tail (probe : String → Bool) (fwd : String → FwdOut) :
    ∀ fuel (q : String → Nat) (l : List String) (b : String),
      (dispatchGo probe fwd fuel q l).2.1 = DOut.success b →
      ∃ pre n m, (dispatchGo probe fwd fuel q l).1 =
        pre ++ [Ev.inc b, Ev.logReq b n, Ev.stream b, Ev.dec b, Ev.logDone b m] := by
  intro fuel
  induction fuel with
  | zero => intro q l b h; exact absurd h (by intro hc; cases hc)
  | succ k ih =>
    intro q l b h
    rcases hs : jsSortByKey q l with _ | ⟨b0, rest⟩
    · simp only [dispatchGo, hs] at h
      exact absurd h (by intro hc; cases hc)
    · simp only [dispatchGo, hs] at h ⊢
      by_cases hp : probe b0 = true
      · rw [if_pos hp] at h ⊢
        rcases hf : fwd b0 with _ | _ | st
        · simp only [hf] at h
          have hth : DOut.threw = DOut.success b := h
          cases hth
        · simp only [hf] at h ⊢
          have hsucc : (dispatchGo probe fwd k
              ((attemptFrame b0 FwdOut.nullResp q).2.1) rest).2.1 = DOut.success b := h
          rcases ih ((attemptFrame b0 FwdOut.nullResp q).2.1) rest b hsucc with ⟨pre, n, m, htr⟩
          refine ⟨(attemptFrame b0 FwdOut.nullResp q).1 ++ pre, n, m, ?_⟩
          show (attemptFrame b0 FwdOut.nullResp q).1 ++
              (dispatchGo probe fwd k ((attemptFrame b0 FwdOut.nullResp q).2.1) rest).1 = _
          rw [htr, List.append_assoc]
        · cases st with
          | true =>
            simp only [hf] at h
            have hth : DOut.threw = DOut.success b := h
            cases hth
          | false =>
            simp only [hf] at h ⊢
            have hsucc : DOut.success b0 = DOut.success b := h
            have hb : b0 = b := by injection hsucc
            refine ⟨[], q b0 + 1, q b0, ?_⟩
            rw [← hb]
            show (attemptFrame b0 (FwdOut.resp false) q).1 = _
            simp [attemptFrame, frameBody, qUpdate]
      · rw [if_neg hp] at h ⊢
        exact ih q rest b h

/-- C7 counterexample: with a single live backend A whose forwarder
returns a streamable response, the emitted trace is push, gen_request,
stream, pop, gen_done: the streaming action precedes the decrement and
the gen_done log line, contradicting the claimed order (decrement before
streaming begins). -/
theorem dec_after_stream_counterexample :
    (dispatchRun (fun _ => true) (fun _ => FwdOut.resp false) (fun _ => 0) ["A"]).1 =
      [Ev.inc "A", Ev.logReq "A" 1, Ev.stream "A", Ev.dec "A", Ev.logDone "A" 0] ∧
    List.findIdx (fun e => e = Ev.stream "A")
        (dispatchRun (fun _ => true) (fun _ => FwdOut.resp false) (fun _ => 0) ["A"]).1 <
      List.findIdx (fun e => e = Ev.dec "A")
        (dispatchRun (fun _ => true) (fun _ => FwdOut.resp false) (fun _ => 0) ["A"]).1 := by
  decide

/-- C7 amended: whenever the attempt loop terminates by streaming a
response from backend `b`, its trace ends with the block push,
gen_request, stream, pop, gen_done for `b`: the decrement and the
gen_done log line are emitted after the streaming step, not before it,
and during streaming the backend still carries the increment of this
request. -/
theorem dec_follows_streaming (probe : String → Bool) (fwd : String → FwdOut)
    (q : String → Nat) (l : List String) (b : String)
    (h : (dispatchRun probe fwd q l).2.1 = DOut.success b) :
    ∃ pre n m, (dispatchRun probe fwd q l).1 =
      pre ++ [Ev.inc b, Ev.logReq b n, Ev.stream b, Ev.dec b, Ev.logDone b m] :=
  dispatchGo_success_tail probe fwd l.length q l b h

/-- Witness for the amended C7 at the concrete one backend run. -/
theorem dec_follows_streaming_witness :
    ∃ pre n m,
      (dispatchRun (fun _ => true) (fun _ => FwdOut.resp false) (fun _ => 0) ["A"]).1 =
        pre ++ [Ev.inc "A", Ev.logReq "A" n, Ev.stream "A", Ev.dec "A", Ev.logDone "A" m] :=
  dec_follows_streaming (fun _ => true) (fun _ => FwdOut.resp false) (fun _ => 0) ["A"] "A"
    (by decide)

/-! ## Authentication (part_000 lines 207-263)

`const token = authHeader.substring("Bearer ".length);`
`const parts = token.split(":");`
`if (parts.length !== 2) { ... 403 ... }`
`const [u, k] = parts;`
`if (authorizedUsers[u] !== k) { ... 403 ... }`

Header and token text is modelled as `List Char`; the authorized users
mapping as an association list. -/

/-- JavaScript `s.split(":")` (no limit argument): split on every colon;
the empty string yields one empty part. -/
def splitColon : List Char → List (List Char)
  | [] => [[]]
  | c :: cs =>
    let r := splitColon cs
    if c = ':' then [] :: r
    else
      match r with
      | h :: t => (c :: h) :: t
      | [] => [[c]]

/-- Lookup in the authorized users mapping; `none` models the JS
`undefined` of a missing property, which compares unequal (`!==`) to
every string. -/
def assocLookup : List (List Char × List Char) → List Char → Option (List Char)
  | [], _ => none
  | (u, k) :: rest, x => if u = x then some k else assocLookup rest x

/-- Result of the authorization check of `handleRequest`. -/
inductive AuthRes where
  | rejected
  | ok (user : List Char)
deriving DecidableEq

/-- The `parts.length !== 2` test followed by `const [u, k] = parts` and
the key comparison: any part count other than two rejects, otherwise the
stored key of the first part must equal the second part exactly. -/
def checkParts (users : List (List Char × List Char)) : List (List Char) → AuthRes
  | [u, k] => if assocLookup users u = some k then .ok u else .rejected
  | _ => .rejected

/-- The authorization check: require the `Authorization` header, require
the literal prefix `Bearer `, take the token after the prefix, split it
on every colon and check the parts. -/
def authenticate (users : List (List Char × List Char)) :
    Option (List Char) → AuthRes
  | none => .rejected
  | some h =>
    if h.take 7 = "Bearer ".data then checkParts users (splitColon (h.drop 7))
    else .rejected

/-- The split the claim describes: at the FIRST colon only, into the part
before it and the whole remainder after it. -/
def splitFirstColon : List Char → Option (List Char × List Char)
  | [] => none
  | c :: cs =>
    if c = ':' then some ([], cs)
    else
      match splitFirstColon cs with
      | some (u, k) => some (c :: u, k)
      | none => none

/-- C4 counterexample: the stored key of alice is `se:cret`, the token is
`alice:se:cret`.  Splitting at the first colon yields exactly the pair
(alice, se:cret) and the stored key equals the KEY part byte-wise, so the
claim says this request authenticates; the code splits on every colon,
obtains three parts, and rejects with 403. -/
theorem auth_colon_key_counterexample :
    authenticate [("alice".data, "se:cret".data)]
        (some ("Bearer alice:se:cret".data)) = AuthRes.rejected ∧
    splitFirstColon "alice:se:cret".data = some ("alice".data, "se:cret".data) ∧
    assocLookup [("alice".data, "se:cret".data)] "alice".data = some ("se:cret".data) := by
  decide

theorem authenticate_bearer (users : List (List Char × List Char)) (tok : List Char) :
    authenticate users (some ("Bearer ".data ++ tok)) = checkParts users (splitColon tok) := by
  have hlen : ("Bearer ".data).length = 7 := by decide
  have htake : ("Bearer ".data ++ tok).take 7 = "Bearer ".data := by
    rw [← hlen, List.take_left]
  have hdrop : ("Bearer ".data ++ tok).drop 7 = tok := by
    rw [← hlen, List.drop_left]
  simp only [authenticate]
  rw [if_pos htake, hdrop]

/-- C4 amended: for every users mapping and every token following the
literal `Bearer ` prefix, the request is rejected with 403 if and only if
splitting the token on EVERY colon does not yield exactly two parts whose
first names a user whose stored key equals the second byte-wise; when it
is not rejected the authenticated user is that first part.  In
particular a token whose KEY contains a colon is always rejected. -/
theorem auth_amended (users : List (List Char × List Char)) (tok : List Char) :
    (authenticate users (some ("Bearer ".data ++ tok)) = AuthRes.rejected ↔
      ∀ u k, splitColon tok = [u, k] → assocLookup users u ≠ some k) ∧
    (∀ u, authenticate users (some ("Bearer ".data ++ tok)) = AuthRes.ok u ↔
      ∃ k, splitColon tok = [u, k] ∧ assocLookup users u = some k) := by
  rw [authenticate_bearer]
  constructor
  · rcases hsp : splitColon tok with _ | ⟨u, rest⟩
    · simp [checkParts]
    · rcases rest with _ | ⟨k, rest2⟩
      · simp [checkParts]
      · rcases rest2 with _ | ⟨x, rest3⟩
        · simp only [checkParts]
          by_cases hk : assocLookup users u = some k
          · rw [if_pos hk]
            constructor
            · intro hc; cases hc
            · intro hall; exact absurd hk (hall u k rfl)
          · rw [if_neg hk]
            constructor
            · intro _ u2 k2 heq
              injection heq with e1 erest
              injection erest with e2 _
              rw [← e1, ← e2]
              exact hk
            · intro _; rfl
        · simp [checkParts]
  · intro u0
    rcases hsp : splitColon tok with _ | ⟨u, rest⟩
    · simp [checkParts]
    · rcases rest with _ | ⟨k, rest2⟩
      · simp [checkParts]
      · rcases rest2 with _ | ⟨x, rest3⟩
        · simp only [checkParts]
          by_cases hk : assocLookup users u = some k
          · rw [if_pos hk]
            constructor
            · intro hok
              have hu : u = u0 := by injection hok
              exact ⟨k, by rw [← hu], by rw [← hu]; exact hk⟩
            · rintro ⟨k2, hsp2, hlk⟩
              injection hsp2 with e1 erest
              rw [e1]
          · rw [if_neg hk]
            constructor
            · intro hc; cases hc
            · rintro ⟨k2, hsp2, hlk⟩
              injection hsp2 with e1 erest
              injection erest with e2 _
              rw [e1, e2] at hk
              exact absurd hlk hk
        · simp [checkParts]

/-- Witness for the amended C4: a well formed token with a colon free
key authenticates, through the amended characterization applied at a
concrete users mapping and token. -/
theorem auth_amended_witness :
    authenticate [("alice".data, "pw".data)] (some ("Bearer ".data ++ "alice:pw".data))
      = AuthRes.ok ("alice".data) :=
  ((auth_amended [("alice".data, "pw".data)] "alice:pw".data).2 ("alice".data)).mpr
    ⟨"pw".data, by decide, by decide⟩

/-! ## Streaming relay: pump (part_000 lines 407-421)

`const chunkSize = value.length.toString(16).toUpperCase();`
`res.write(chunkSize + "\r\n"); res.write(value); res.write("\r\n");`
and after end of stream `res.write("0\r\n\r\n"); res.end();`.

The guard `if (value)` of the source does not filter out an empty
`Uint8Array`: every object is truthy in JavaScript, so an empty chunk is
framed like any other chunk.  Bytes are `Nat` values; the upstream body
arrives as a list of chunks. -/

/-- One hexadecimal digit as its ASCII byte, uppercase letters
(`toString(16)` produces lowercase digits and `toUpperCase` lifts
them). -/
def hexDigitByte (n : Nat) : Nat := if n < 10 then 48 + n else 55 + n

/-- Accumulator loop of the base 16 representation (fuel bounded,
`n` itself more than suffices). -/
def hexAux : Nat → Nat → List Nat → List Nat
  | 0, _, acc => acc
  | f + 1, n, acc =>
    if n = 0 then acc else hexAux f (n / 16) (hexDigitByte (n % 16) :: acc)

/-- The value of `n.toString(16).toUpperCase()` as ASCII bytes. -/
def hexUpper (n : Nat) : List Nat := if n = 0 then [48] else hexAux (n + 1) n []

/-- Carriage return and line feed. -/
def crlf : List Nat := [13, 10]

/-- The `pump` loop over the upstream chunks, followed by the terminator
`0\r\n\r\n`: every chunk the reader yields, empty ones included, is
framed as hex size, CRLF, bytes, CRLF. -/
def pump (chunks : List (List Nat)) : List Nat :=
  (chunks.map (fun v => hexUpper v.length ++ crlf ++ v ++ crlf)).flatten ++
    ([48] ++ crlf ++ crlf)

/-- Value of an ASCII byte as a hexadecimal digit, both cases. -/
def hexVal (b : Nat) : Option Nat :=
  if 48 ≤ b ∧ b ≤ 57 then some (b - 48)
  else if 65 ≤ b ∧ b ≤ 70 then some (b - 55)
  else if 97 ≤ b ∧ b ≤ 102 then some (b - 87)
  else none

/-- Read a chunk size line: hexadecimal digits terminated by CRLF. -/
def parseChunkSize : Nat → Bool → List Nat → Option (Nat × List Nat)
  | acc, seen, 13 :: 10 :: rest => if seen then some (acc, rest) else none
  | acc, _, b :: rest =>
    match hexVal b with
    | some v => parseChunkSize (acc * 16 + v) true rest
    | none => none
  | _, _, [] => none

/-- Standard HTTP chunked transfer decoder: read a size line, then that
many bytes, then CRLF, repeatedly; a size of zero is the last chunk
marker and ends the body.  Fuel bounded by the input length. -/
def decodeGo : Nat → List Nat → Option (List Nat)
  | 0, _ => none
  | fuel + 1, bs =>
    match parseChunkSize 0 false bs with
    | none => none
    | some (0, _) => some []
    | some (n, rest) =>
      if n ≤ rest.length then
        match rest.drop n with
        | 13 :: 10 :: rest2 =>
          match decodeGo fuel rest2 with
          | some body => some (rest.take n ++ body)
          | none => none
        | _ => none
      else none

/-- Decode a chunked body; the bodies of the chunks before the zero size
marker, concatenated. -/
def decodeChunked (bs : List Nat) : Option (List Nat) :=
  decodeGo (bs.length + 1) bs

/-- C5: the guard `if (value)` is truthy even for an empty chunk, so an
empty chunk is framed as `0\r\n\r\n`, which is exactly the last chunk
marker of chunked transfer encoding: for the upstream chunk sequence
[[], [65]] the relay emits the terminator first, a standard decoder stops
there, and the client reconstructs the empty body instead of the single
byte 65 -- the round trip of the claim fails.  For the same stream
without the empty chunk the round trip holds. -/
theorem pump_empty_chunk_bug :
    pump [[], [65]] =
      ([48, 13, 10, 13, 10] ++ [49, 13, 10, 65, 13, 10] ++ [48, 13, 10, 13, 10]) ∧
    decodeChunked (pump [[], [65]]) = some [] ∧
    ([[], [65]] : List (List Nat)).flatten = [65] ∧
    decodeChunked (pump [[65]]) = some [65] ∧
    some ([] : List Nat) ≠ some [65] := by
  decide

/-! ## Header filtering (part_000 lines 316-318, 167-172, 389-402)

Request side: `const backendHeaders = { ...req.headers };` then
`delete backendHeaders["authorization"]; delete backendHeaders["host"];`
(Node lowercases incoming header names, so the lowercase keys are the
ones present).  Inside `sendRequestWithRetries`, for POST/PUT/PATCH with
a (truthy) parsed body the options gain
`options.headers["Content-Type"] = "application/json"` unless the exact
key `Content-Type` already holds a truthy value.

Response side: copy every upstream header whose lowercased name is not
content-length, transfer-encoding or content-encoding, then assign
`headersToSend["Transfer-Encoding"] = "chunked"` and write the upstream
status code.  Header maps are association lists of string pairs. -/

/-- The three body bearing methods of the source. -/
def bodyMethods : List String := ["POST", "PUT", "PATCH"]

/-- The deletions `delete backendHeaders["authorization"]` and
`delete backendHeaders["host"]`. -/
def stripHopHeaders (hdrs : List (String × String)) : List (String × String) :=
  hdrs.filter (fun kv => !(kv.1 == "authorization") && !(kv.1 == "host"))

/-- JS object property read, `none` for an absent key. -/
def assocLookupS : List (String × String) → String → Option String
  | [], _ => none
  | (k, v) :: rest, x => if k = x then some v else assocLookupS rest x

/-- The test `!options.headers["Content-Type"]`: the key is absent or its value is
the empty string (the only falsy string). -/
def ctMissing (hdrs : List (String × String)) : Bool :=
  match assocLookupS hdrs "Content-Type" with
  | none => true
  | some v => v == ""

/-- JS object property assignment on an association list: replace the
value when the exact key exists, otherwise append the pair. -/
def jsSetKey (hdrs : List (String × String)) (k v : String) : List (String × String) :=
  if hdrs.any (fun kv => kv.1 == k) then
    hdrs.map (fun kv => if kv.1 == k then (k, v) else kv)
  else hdrs ++ [(k, v)]

/-- The header object passed to `fetch` for the upstream request:
the stripped incoming headers, with `Content-Type: application/json`
set for body bearing methods with a truthy body when the exact key
`Content-Type` holds no truthy value.  In `handleRequest` the parsed
body is always an object (truthy), so the second argument is true at
every call site of the dispatcher. -/
def forwardHeaders (method : String) (postDataTruthy : Bool)
    (hdrs : List (String × String)) : List (String × String) :=
  let base := stripHopHeaders hdrs
  if bodyMethods.contains method && postDataTruthy then
    if ctMissing base then jsSetKey base "Content-Type" "application/json" else base
  else base

/-- ASCII lowercase of one character, as `toLowerCase` acts on header
names. -/
def lowerChar (c : Char) : Char :=
  if 65 ≤ c.toNat ∧ c.toNat ≤ 90 then Char.ofNat (c.toNat + 32) else c

/-- ASCII lowercase of a string. -/
def lowerS (s : String) : String := String.mk (s.data.map lowerChar)

/-- The header names removed from relayed responses. -/
def strippedRespNames : List String :=
  ["content-length", "transfer-encoding", "content-encoding"]

/-- The `key.toLowerCase()` membership test of the source. -/
def isStrippedRespName (k : String) : Bool := strippedRespNames.contains (lowerS k)

/-- The `headersToSend` object: upstream headers minus the stripped
names (case insensitively), then `Transfer-Encoding: chunked` assigned. -/
def relayHeaders (up : List (String × String)) : List (String × String) :=
  jsSetKey (up.filter (fun kv => !isStrippedRespName kv.1)) "Transfer-Encoding" "chunked"

/-- The call `res.writeHead(response.status, headersToSend)`. -/
def clientHead (status : Nat) (up : List (String × String)) :
    Nat × List (String × String) :=
  (status, relayHeaders up)

/-- C6 counterexample: a POST request with an empty header set.  The
claim says the upstream header set equals the incoming set minus
Authorization and Host, hence empty; the forwarder additionally sets
`Content-Type: application/json` (the exact key `Content-Type` is never
present among the lowercased incoming names). -/
theorem forward_headers_counterexample :
    forwardHeaders "POST" true [] = [("Content-Type", "application/json")] ∧
    stripHopHeaders ([] : List (String × String)) = [] ∧
    forwardHeaders "POST" true [] ≠ stripHopHeaders [] := by
  refine ⟨by decide, rfl, ?_⟩
  intro h
  rw [show forwardHeaders "POST" true [] = [("Content-Type", "application/json")] by decide,
    show stripHopHeaders ([] : List (String × String)) = [] by rfl] at h
  cases h

theorem no_te_key_in_filtered (up : List (String × String)) :
    (up.filter (fun kv => !isStrippedRespName kv.1)).any
      (fun kv => kv.1 == "Transfer-Encoding") = false := by
  by_contra hc
  rw [Bool.not_eq_false, List.any_eq_true] at hc
  obtain ⟨kv, hmem, hk⟩ := hc
  rw [List.mem_filter] at hmem
  have hkey : kv.1 = "Transfer-Encoding" := by simpa using hk
  have hstr : isStrippedRespName kv.1 = true := by rw [hkey]; decide
  rw [hstr] at hmem
  simp at hmem

theorem relayHeaders_eq (up : List (String × String)) :
    relayHeaders up =
      up.filter (fun kv => !isStrippedRespName kv.1) ++ [("Transfer-Encoding", "chunked")] := by
  rw [relayHeaders, jsSetKey, no_te_key_in_filtered]
  simp

theorem assocLookupS_ne_none_of_mem (l : List (String × String)) (x : String) :
    ∀ kv ∈ l, kv.1 = x → assocLookupS l x ≠ none := by
  induction l with
  | nil => intro kv h; exact absurd h (List.not_mem_nil kv)
  | cons p rest ih =>
    intro kv hmem hkey
    rcases List.mem_cons.mp hmem with h1 | h2
    · rw [assocLookupS, if_pos (by rw [← h1]; exact hkey)]
      intro hc; cases hc
    · rw [assocLookupS]
      by_cases hp : p.1 = x
      · rw [if_pos hp]; intro hc; cases hc
      · rw [if_neg hp]; exact ih kv h2 hkey

/-- C6 amended: forwarded requests carry the incoming headers with
exactly the `authorization` and `host` entries removed, except that for
POST, PUT and PATCH (the parsed body object is always truthy) a
`Content-Type: application/json` entry is appended when no entry has the
exact key `Content-Type`; relayed responses carry the upstream headers
minus Content-Length, Transfer-Encoding and Content-Encoding (matched
case insensitively) plus `Transfer-Encoding: chunked`, under the
upstream status code. -/
theorem header_filtering_amended (m : String) (hdrs up : List (String × String))
    (status : Nat) :
    (∀ kv, kv ∈ stripHopHeaders hdrs ↔
      (kv ∈ hdrs ∧ kv.1 ≠ "authorization" ∧ kv.1 ≠ "host")) ∧
    (bodyMethods.contains m = true →
      assocLookupS (stripHopHeaders hdrs) "Content-Type" = none →
      forwardHeaders m true hdrs =
        stripHopHeaders hdrs ++ [("Content-Type", "application/json")]) ∧
    (bodyMethods.contains m = false → forwardHeaders m true hdrs = stripHopHeaders hdrs) ∧
    (("Transfer-Encoding", "chunked") ∈ relayHeaders up) ∧
    (∀ kv, kv ∈ relayHeaders up ↔
      ((kv ∈ up ∧ isStrippedRespName kv.1 = false) ∨ kv = ("Transfer-Encoding", "chunked"))) ∧
    (clientHead status up).1 = status := by
  refine ⟨?_, ?_, ?_, ?_, ?_, rfl⟩
  · intro kv
    rw [stripHopHeaders, List.mem_filter]
    constructor
    · rintro ⟨h1, h2⟩
      simp only [Bool.and_eq_true, Bool.not_eq_true', beq_eq_false_iff_ne, ne_eq] at h2
      exact ⟨h1, h2.1, h2.2⟩
    · rintro ⟨h1, h2, h3⟩
      refine ⟨h1, ?_⟩
      simp [h2, h3]
  · intro hm hct
    rw [forwardHeaders]
    simp only [hm, Bool.and_self, if_true]
    rw [show ctMissing (stripHopHeaders hdrs) = true by rw [ctMissing, hct]]
    simp only [if_true]
    rw [jsSetKey]
    have hany : (stripHopHeaders hdrs).any (fun kv => kv.1 == "Content-Type") = false := by
      by_contra hc
      rw [Bool.not_eq_false, List.any_eq_true] at hc
      obtain ⟨kv, hmem, hk⟩ := hc
      have hkey : kv.1 = "Content-Type" := by simpa using hk
      exact assocLookupS_ne_none_of_mem (stripHopHeaders hdrs) "Content-Type" kv hmem hkey hct
    rw [hany]
    simp
  · intro hm
    have hc : (bodyMethods.contains m && true) = false := by rw [hm]; rfl
    simp only [forwardHeaders]
    rw [hc]
    simp
  · rw [relayHeaders_eq]
    simp
  · intro kv
    rw [relayHeaders_eq, List.mem_append, List.mem_filter]
    constructor
    · rintro (⟨h1, h2⟩ | h1)
      · exact Or.inl ⟨h1, by simpa using h2⟩
      · simp only [List.mem_singleton] at h1
        exact Or.inr h1
    · rintro (⟨h1, h2⟩ | h1)
      · exact Or.inl ⟨h1, by simp [h2]⟩
      · exact Or.inr (by simp [h1])

/-- Witness for the amended C6: a concrete POST request with one accept
header gains exactly the json content type entry. -/
theorem header_filtering_amended_witness :
    forwardHeaders "POST" true [("accept", "text/html")] =
      [("accept", "text/html"), ("Content-Type", "application/json")] := by
  have h := (header_filtering_amended "POST" [("accept", "text/html")] [] 200).2.1
    (by decide) (by decide)
  rw [h]
  decide

/-! ## Non model endpoint branch (part_000 lines 449-457 and 517-523,
aiHandler.ts lines 769-781)

The standalone entry point runs
`const [defaultServerName, defaultServerInfo] = servers[0];` with no
guard: on an empty snapshot `servers[0]` is undefined and the
destructuring throws a TypeError, which the `.catch` of the top level
handler answers with 500 `Internal server error`.  The embedded handler
guards with `if (servers.length === 0)` and answers 503
`No servers configured.`. -/

/-- An HTTP reply: status code and body text. -/
def Reply : Type := Nat × List Char

/-- The default backend branch of the standalone `handleRequest`:
destructuring the head of an empty snapshot throws (modelled as the
error case of `Except`); otherwise probe the first backend, then forward
(the oracle gives the upstream status when a response arrived). -/
def nonModelStandalone (servers : List String) (probeOk : Bool)
    (fwdStatus : Option Nat) : Except Unit Reply :=
  match servers with
  | [] => Except.error ()
  | _ :: _ =>
    if probeOk = false then Except.ok (503, "Default server is not available.".data)
    else
      match fwdStatus with
      | some st => Except.ok (st, [])
      | none => Except.ok (503, "Failed to forward request to default server.".data)

/-- The `.catch` wrapper of `http.createServer`: any exception that
escapes `handleRequest` is answered with 500. -/
def serverCatch (r : Except Unit Reply) : Reply :=
  match r with
  | Except.error _ => (500, "Internal server error".data)
  | Except.ok v => v

/-- The same branch in the embedded handler, which starts with the
`servers.length === 0` guard. -/
def nonModelEmbedded (servers : List String) (probeOk : Bool)
    (fwdStatus : Option Nat) : Reply :=
  match servers with
  | [] => (503, "No servers configured.".data)
  | _ :: _ =>
    if probeOk = false then (503, "Default server is not available.".data)
    else
      match fwdStatus with
      | some st => (st, [])
      | none => (503, "Failed to forward request to default server.".data)

/-- C8: on an empty snapshot the standalone dispatcher does not answer
503: the destructuring throws and the top level catch answers 500
`Internal server error`; the embedded dispatcher answers 503
`No servers configured.` as the claim describes. -/
theorem empty_snapshot_default_branch :
    serverCatch (nonModelStandalone [] true none) =
      (500, "Internal server error".data) ∧
    (serverCatch (nonModelStandalone [] true none)).1 ≠ 503 ∧
    nonModelEmbedded [] true none = (503, "No servers configured.".data) := by
  refine ⟨rfl, ?_, rfl⟩
  intro h
  have : (500 : Nat) = 503 := h
  cases this

/-! ## Model extraction (part_000 lines 304-306 and 321-328)

`let model = postData.model || (getParams["model"] ? getParams["model"][0] : undefined);`
`if (!model)` answers 400 with the body Missing (quote) model (quote) in request.

Both the extraction and the missing check use JS truthiness, under which
the empty string behaves like undefined. -/

/-- The model based endpoints of the standalone entry point. -/
def modelBasedEndpoints : List String := ["/api/generate", "/api/chat", "/generate", "/chat"]

/-- The expression `getParams["model"] ? getParams["model"][0] : undefined`: the first
query value; an empty value array (never produced by the parser, which
always wraps values) reads index 0 as undefined. -/
def queryFirst : Option (List String) → Option String
  | some (v :: _) => some v
  | _ => none

/-- The expression `postData.model || (getParams["model"] ? ... : undefined)`:
a falsy body model (absent or empty) falls through to the first query
value. -/
def extractModel (bodyModel : Option String) (queryModel : Option (List String)) :
    Option String :=
  match bodyModel with
  | some s => if s = "" then queryFirst queryModel else some s
  | none => queryFirst queryModel

/-- The test `!model`: undefined or the empty string. -/
def modelMissing : Option String → Bool
  | none => true
  | some s => s == ""

/-- The 400 gate of the model based branch: `some reply` when the
request is answered locally with 400, `none` when dispatch continues. -/
def routeModelCheck (path : String) (bodyModel : Option String)
    (queryModel : Option (List String)) : Option (Nat × List Char) :=
  if modelBasedEndpoints.contains path then
    if modelMissing (extractModel bodyModel queryModel) then
      some (400, "Missing ".data ++ [Char.ofNat 39] ++ "model".data ++ [Char.ofNat 39]
        ++ " in request".data)
    else none
  else none

/-- The body of the 400 reply. -/
def missingModelBody : List Char :=
  "Missing ".data ++ [Char.ofNat 39] ++ "model".data ++ [Char.ofNat 39] ++ " in request".data

/-- C10: on a model based endpoint, when every binding of the key
`model` that is present is the empty string (body value empty or absent,
query value list absent, empty, or headed by the empty string), the
dispatcher answers 400 with the missing model body, because both the
extraction fallback and the missing check treat the empty string like
undefined. -/
theorem empty_model_treated_as_absent (path : String) (bm : Option String)
    (qm : Option (List String))
    (hpath : modelBasedEndpoints.contains path = true)
    (hbm : bm = none ∨ bm = some "")
    (hqm : qm = none ∨ qm = some [] ∨ ∃ t, qm = some ("" :: t)) :
    routeModelCheck path bm qm = some (400, missingModelBody) := by
  rw [routeModelCheck, if_pos hpath]
  have hfall : queryFirst qm = none ∨ queryFirst qm = some "" := by
    rcases hqm with h | h | ⟨t, h⟩ <;> subst h
    · exact Or.inl rfl
    · exact Or.inl rfl
    · exact Or.inr rfl
  have hmiss : modelMissing (extractModel bm qm) = true := by
    rcases hbm with hb | hb <;> subst hb
    · have he : extractModel none qm = queryFirst qm := rfl
      rw [he]
      rcases hfall with hf | hf <;> rw [hf] <;> rfl
    · have he : extractModel (some "") qm = queryFirst qm := rfl
      rw [he]
      rcases hfall with hf | hf <;> rw [hf] <;> rfl
  rw [if_pos hmiss]
  rfl

/-- Witness for C10: POST to /api/chat with body model empty and no
query model answers 400. -/
theorem empty_model_treated_as_absent_witness :
    routeModelCheck "/api/chat" (some "") none = some (400, missingModelBody) :=
  empty_model_treated_as_absent "/api/chat" (some "") none (by decide)
    (Or.inr rfl) (Or.inl rfl)

/-! ## Access log CSV serialization (part_000 lines 66-113)

`const csvLine = (obj) => fields.map((f) => JSON.stringify(obj[f] || "")).join(",");`

`obj[f] || ""` replaces every falsy field value (null ip, the number 0,
an empty string) by the empty string; `JSON.stringify` then quotes and
escapes strings but renders numbers bare. -/

/-- The JS values that reach the serializer: strings, numbers and null
(the ip address may be null). -/
inductive JVal where
  | jstr (s : List Char)
  | jnum (n : Int)
  | jnull
deriving DecidableEq

/-- The expression `x || ""`: falsy values (null, the number 0, the empty string)
become the empty string. -/
def jsOrEmptyStr : JVal → JVal
  | .jstr s => .jstr s
  | .jnum n => if n = 0 then .jstr [] else .jnum n
  | .jnull => .jstr []

/-- Lowercase hexadecimal digit (for control character escapes). -/
def hexLowerDigit (n : Nat) : Char :=
  Char.ofNat (if n < 10 then 48 + n else 87 + n)

/-- JSON string escaping of one character, as `JSON.stringify`
performs it. -/
def escapeJsonChar (c : Char) : List Char :=
  if c = '"' then ['\\', '"']
  else if c = '\\' then ['\\', '\\']
  else if c.toNat = 8 then ['\\', 'b']
  else if c.toNat = 9 then ['\\', 't']
  else if c.toNat = 10 then ['\\', 'n']
  else if c.toNat = 12 then ['\\', 'f']
  else if c.toNat = 13 then ['\\', 'r']
  else if c.toNat < 32 then
    ['\\', 'u', '0', '0', hexLowerDigit (c.toNat / 16), hexLowerDigit (c.toNat % 16)]
  else [c]

/-- A JSON string literal: quote, escaped characters, quote. -/
def quoteJson (s : List Char) : List Char :=
  '"' :: (s.map escapeJsonChar).flatten ++ ['"']

/-- Decimal digits of a natural number (fuel bounded). -/
def natReprAux : Nat → Nat → List Char → List Char
  | 0, _, acc => acc
  | f + 1, n, acc =>
    if n < 10 then Char.ofNat (48 + n) :: acc
    else natReprAux f (n / 10) (Char.ofNat (48 + n % 10) :: acc)

/-- Decimal representation of a natural number. -/
def natRepr (n : Nat) : List Char := natReprAux (n + 1) n []

/-- Decimal representation of an integer, as `JSON.stringify` renders
numbers. -/
def intRepr (n : Int) : List Char :=
  if n < 0 then '-' :: natRepr (-n).toNat else natRepr n.toNat

/-- The function `JSON.stringify` on the values at hand: strings are quoted and
escaped, numbers are rendered bare, null renders as the word null (the
source never reaches this case because `|| ""` replaced it). -/
def jsonStringify : JVal → List Char
  | .jstr s => quoteJson s
  | .jnum n => intRepr n
  | .jnull => "null".data

/-- One access log record before serialization, in the column order of
the `fields` array. -/
structure LogEntry where
  time_stamp : List Char
  event : List Char
  user_name : List Char
  ip_address : Option (List Char)
  access : List Char
  server : List Char
  nb_queued : Int
  error : List Char

/-- The values `obj[f]` reads, in column order. -/
def rowVals (e : LogEntry) : List JVal :=
  [.jstr e.time_stamp, .jstr e.event, .jstr e.user_name,
    (match e.ip_address with | some s => .jstr s | none => .jnull),
    .jstr e.access, .jstr e.server, .jnum e.nb_queued, .jstr e.error]

/-- The call `.join(",")`. -/
def joinComma : List (List Char) → List Char
  | [] => []
  | [f] => f
  | f :: rest => f ++ ',' :: joinComma rest

/-- The serialized fields `fields.map((f) => JSON.stringify(obj[f] || ""))`. -/
def csvFields (e : LogEntry) : List (List Char) :=
  (rowVals e).map (fun v => jsonStringify (jsOrEmptyStr v))

/-- The CSV record `addAccessLogEntry` writes (without the newline). -/
def csvLine (e : LogEntry) : List Char := joinComma (csvFields e)

/-- A gen_done row with an empty queue. -/
def rowZero : LogEntry :=
  ⟨"t".data, "gen_done".data, "alice".data, some "::1".data,
    "Authorized".data, "srv".data, 0, []⟩

/-- A rejection row, `nb_queued = -1`. -/
def rowRejected : LogEntry :=
  ⟨"t".data, "rejected".data, "alice:WRONG".data, some "::1".data,
    "Denied".data, "None".data, -1, "Authentication failed".data⟩

/-- C9 counterexample: the nb_queued column of a rejection row is the
bare two characters `-1`, not a quoted JSON string, and the nb_queued
column of a row with an empty queue is the quoted empty string, not the
integer 0 (`0 || ""` is the empty string).  The full rejection line
shows the bare `-1` between quoted neighbours. -/
theorem csv_serialization_counterexample :
    jsonStringify (jsOrEmptyStr (JVal.jnum 0)) = ['"', '"'] ∧
    jsonStringify (jsOrEmptyStr (JVal.jnum (-1))) = ['-', '1'] ∧
    (csvFields rowRejected).get? 6 = some ['-', '1'] ∧
    (['-', '1'].head? = some '"') = False ∧
    (csvFields rowZero).get? 6 = some ['"', '"'] ∧
    ('0' ∈ (['"', '"'] : List Char)) = False ∧
    csvLine rowRejected =
      ("\"t\",\"rejected\",\"alice:WRONG\",\"::1\",\"Denied\",\"None\",-1,"
        ++ "\"Authentication failed\"").data := by
  refine ⟨rfl, rfl, rfl, by simp, rfl, by simp, by decide⟩

/-- The record the amended claim describes: each field is
`JSON.stringify` applied to the field value with falsy values replaced
by the empty string, so the six text columns and the ip column are
quoted escaped strings (empty when the ip is null), the nb_queued column
is the bare decimal integer when it is nonzero and the quoted empty
string when it is 0, all joined by commas. -/
def csvLineSpec (e : LogEntry) : List Char :=
  quoteJson e.time_stamp ++ ',' :: quoteJson e.event ++ ',' :: quoteJson e.user_name ++ ',' ::
    (match e.ip_address with | some s => quoteJson s | none => quoteJson []) ++ ',' ::
    quoteJson e.access ++ ',' :: quoteJson e.server ++ ',' ::
    (if e.nb_queued = 0 then quoteJson [] else intRepr e.nb_queued) ++ ',' ::
    quoteJson e.error

/-- C9 amended: the CSV record of every log row is exactly the field by
field serialization described by `csvLineSpec`: quoted JSON strings for
the text columns, quoted empty string for a null ip and for a zero
queue depth, bare decimal digits for every nonzero queue depth. -/
theorem csv_line_amended (e : LogEntry) : csvLine e = csvLineSpec e := by
  rcases e with ⟨ts, ev, un, ip, ac, sv, nb, er⟩
  rcases ip with _ | s <;> by_cases hnb : nb = 0 <;>
    simp [csvLine, csvFields, rowVals, joinComma, csvLineSpec, jsOrEmptyStr,
      jsonStringify, hnb]
